import Mathlib

/-!
Shallow embedding of `src/Reynolds_viewer.py`.

The program's numeric values are numpy double-precision floats.  We model
them with the type `NFloat`: a finite value is an exact rational (no
rounding is modelled; none of the verified properties depends on rounding),
and the IEEE special values `nan`, `+inf`, `-inf` are explicit
constructors.  Comparisons follow numpy semantics: any comparison with
`nan` is false.  Multiplication and division follow the IEEE conventions
numpy uses (division of a nonzero finite by zero gives a signed infinity,
`0/0` and `inf*0` give `nan`, and so on).

`math.pi` in the source is the double closest to π; we embed it as that
double's exact rational value `piQ`.
-/

namespace ReynoldsViewer

/-- Exact rational value of the IEEE-754 double `math.pi`. -/
def piQ : ℚ := 884279719003555 / 281474976710656

/-- Model of a numpy double: `nan`, the two infinities, or an exact finite value. -/
inductive NFloat where
  | nan : NFloat
  | inf : NFloat
  | ninf : NFloat
  | fin : ℚ → NFloat
deriving DecidableEq, Repr

namespace NFloat

/-- numpy `<` on doubles: every comparison involving `nan` is false;
`-inf` is below every non-`nan` value other than itself and `+inf` is
above every non-`nan` value other than itself. -/
def lt : NFloat → NFloat → Bool
  | nan, _ => false
  | _, nan => false
  | inf, _ => false
  | ninf, ninf => false
  | ninf, inf => true
  | ninf, fin _ => true
  | fin _, inf => true
  | fin _, ninf => false
  | fin p, fin q => decide (p < q)

/-- numpy `>`: `a > b` holds exactly when `b < a` (false whenever `nan` is involved). -/
def gt (a b : NFloat) : Bool := lt b a

/-- numpy multiplication on doubles (special values only; finite products are exact). -/
def mul : NFloat → NFloat → NFloat
  | nan, _ => nan
  | _, nan => nan
  | inf, inf => inf
  | inf, ninf => ninf
  | ninf, inf => ninf
  | ninf, ninf => inf
  | inf, fin q => if 0 < q then inf else if q < 0 then ninf else nan
  | fin q, inf => if 0 < q then inf else if q < 0 then ninf else nan
  | ninf, fin q => if 0 < q then ninf else if q < 0 then inf else nan
  | fin q, ninf => if 0 < q then ninf else if q < 0 then inf else nan
  | fin p, fin q => fin (p * q)

/-- numpy division on doubles: a nonzero finite divided by zero is a signed
infinity, `0/0` is `nan`, infinities divided by finites keep their sign,
`inf/inf` is `nan`, and finites divided by infinities are zero.
(Signed zero is not modelled; no verified property depends on it.) -/
def div : NFloat → NFloat → NFloat
  | nan, _ => nan
  | _, nan => nan
  | inf, inf => nan
  | inf, ninf => nan
  | ninf, inf => nan
  | ninf, ninf => nan
  | inf, fin q => if 0 ≤ q then inf else ninf
  | ninf, fin q => if 0 ≤ q then ninf else inf
  | fin _, inf => fin 0
  | fin _, ninf => fin 0
  | fin p, fin q =>
      if q = 0 then (if 0 < p then inf else if p < 0 then ninf else nan)
      else fin (p / q)

/-- A value is non-finite when it is `nan` or an infinity. -/
def isNonFinite : NFloat → Bool
  | nan => true
  | inf => true
  | ninf => true
  | fin _ => false

end NFloat

open NFloat

/-- Source function `reynolds` (lines 7–8) in the ideal-rational model, with
`math.pi` embedded as its exact double value `piQ`:
`(4 * density * x) / (60 * viscosity * math.pi * y)`. -/
def reynolds (x y density viscosity : ℚ) : ℚ :=
  (4 * density * x) / (60 * viscosity * piQ * y)

/-- Source function `reynolds` (lines 7–8) evaluated in the numpy-float model, with
Python's left-associated evaluation order. -/
def reynoldsF (x y density viscosity : NFloat) : NFloat :=
  NFloat.div (NFloat.mul (NFloat.mul (fin 4) density) x)
    (NFloat.mul (NFloat.mul (NFloat.mul (fin 60) viscosity) (fin piQ)) y)

/-- Elementwise `reynolds` over a pair of same-shape 1D arrays (numpy
broadcasting of two arrays of equal shape is elementwise application). -/
def reynoldsZip (xs ys : List ℚ) (density viscosity : ℚ) : List ℚ :=
  List.zipWith (fun x y => reynolds x y density viscosity) xs ys

/-- The scalar core of `mask_z_values` (source lines 11–13):
`np.where((Z < z_min) | (Z > z_max), np.nan, Z)` at one entry. -/
def maskVal (z zmin zmax : NFloat) : NFloat :=
  if NFloat.lt z zmin || NFloat.gt z zmax then NFloat.nan else z

/-- Source function `mask_z_values` (lines 11–13) on a 1D array: `np.where` applies
the scalar masking rule elementwise. -/
def mask_z_values (Z : List NFloat) (zmin zmax : NFloat) : List NFloat :=
  Z.map (fun z => maskVal z zmin zmax)

/-- Source function `mask_z_values` (lines 11–13) on a 2D array. -/
def mask_z_values2 (Z : List (List NFloat)) (zmin zmax : NFloat) : List (List NFloat) :=
  Z.map (fun row => row.map (fun z => maskVal z zmin zmax))

/-- Model of `np.linspace(a, b, n)` (source lines 32–33): `n` evenly spaced samples,
entry `i` equal to `a + i * (b - a) / (n - 1)`, endpoints hit exactly. -/
def linspace (a b : ℚ) (n : ℕ) : List ℚ :=
  (List.range n).map (fun i : ℕ => a + (i : ℚ) * (b - a) / ((n : ℚ) - 1))

/-- Model of `np.meshgrid(xs, ys)` (source line 34): a pair of 2D arrays of shape
`(ys.length, xs.length)`; every row of `X` is `xs`, and row `i` of `Y` is
constantly the `i`-th element of `ys`. -/
def meshgrid {α : Type} (xs ys : List α) : List (List α) × List (List α) :=
  (ys.map (fun _ => xs), ys.map (fun yi => xs.map (fun _ => yi)))

/-- Model of `np.full_like(A, c)`: an array of the same shape as `A` with every
entry equal to `c`. -/
def full_like {α β : Type} (A : List (List α)) (c : β) : List (List β) :=
  A.map (fun row => row.map (fun _ => c))

/-- Source expression `Z_boundary = np.full_like(X, 2000)` (line 41). -/
def Z_boundary (X : List (List NFloat)) : List (List NFloat) :=
  full_like X (fin 2000)

/-- Elementwise `reynolds` over two same-shape 2D arrays, as in
`Z = reynolds(X, Y, density, viscosity)` (source line 35) in the
numpy-float model. -/
def reynoldsGrid (X Y : List (List NFloat)) (density viscosity : NFloat) :
    List (List NFloat) :=
  List.zipWith (fun rx ry => List.zipWith (fun x y => reynoldsF x y density viscosity) rx ry) X Y

/-- Source expression `Z_y_fixed = reynolds(x, y_value, density, viscosity)` (line 82):
the scalar `y_value` broadcasts against the 1D array `x`. -/
def Z_y_fixed (xs : List NFloat) (y_value density viscosity : NFloat) : List NFloat :=
  xs.map (fun xi => reynoldsF xi y_value density viscosity)

/-- Source expression `Z_y_fixed_masked` (line 83): the masking expression
`np.where((Z_y_fixed < z_min) | (Z_y_fixed > z_max), np.nan, Z_y_fixed)`
written inline, duplicating the body of `mask_z_values`. -/
def Z_y_fixed_masked (xs : List NFloat) (y_value density viscosity zmin zmax : NFloat) :
    List NFloat :=
  (Z_y_fixed xs y_value density viscosity).map
    (fun z => if NFloat.lt z zmin || NFloat.gt z zmax then NFloat.nan else z)

/-- Entry `(i, j)` of a 2D array, when both indices are in range. -/
def gridGet {α : Type} (G : List (List α)) (i j : ℕ) : Option α :=
  (G[i]?).bind (fun row => row[j]?)

/-- Source expression `x = np.linspace(x_min, x_max, 100)` (line 32). -/
def x_seq (x_min x_max : ℚ) : List ℚ :=
  linspace x_min x_max 100

/-- Source expression `y = np.linspace(y_min, y_max, 100)` (line 33). -/
def y_seq (y_min y_max : ℚ) : List ℚ :=
  linspace y_min y_max 100

/-- Source expression `X, Y = np.meshgrid(x, y)` (line 34). -/
def XY (x_min x_max y_min y_max : ℚ) : List (List ℚ) × List (List ℚ) :=
  meshgrid (x_seq x_min x_max) (y_seq y_min y_max)

/- ### Helper lemmas about the scalar mask and the float model -/

lemma maskVal_nan (zmin zmax : NFloat) : maskVal NFloat.nan zmin zmax = NFloat.nan := by
  simp [maskVal]

lemma maskVal_inf (low high : ℚ) : maskVal NFloat.inf (fin low) (fin high) = NFloat.nan := rfl

lemma maskVal_ninf (low high : ℚ) : maskVal NFloat.ninf (fin low) (fin high) = NFloat.nan := rfl

lemma maskVal_fin (q low high : ℚ) :
    maskVal (fin q) (fin low) (fin high) =
      if q < low ∨ high < q then NFloat.nan else fin q := by
  by_cases h1 : q < low <;> by_cases h2 : high < q <;>
    simp [maskVal, NFloat.gt, NFloat.lt, h1, h2]

lemma nfdiv_fin_zero (n : NFloat) : isNonFinite (NFloat.div n (fin 0)) = true := by
  cases n with
  | nan => rfl
  | inf => rfl
  | ninf => rfl
  | fin p =>
      simp only [NFloat.div, if_pos rfl]
      split_ifs <;> rfl

lemma nfdiv_nan_right (n : NFloat) : NFloat.div n NFloat.nan = NFloat.nan := by
  cases n <;> rfl

lemma nfmul_fin_zero_right (m : NFloat) :
    NFloat.mul m (fin 0) = fin 0 ∨ NFloat.mul m (fin 0) = NFloat.nan := by
  cases m with
  | nan => exact Or.inr rfl
  | inf => simp [NFloat.mul]
  | ninf => simp [NFloat.mul]
  | fin p => exact Or.inl (by simp [NFloat.mul])

lemma nfmul_fin_zero_left (m : NFloat) :
    NFloat.mul (fin 0) m = fin 0 ∨ NFloat.mul (fin 0) m = NFloat.nan := by
  cases m with
  | nan => exact Or.inr rfl
  | inf => simp [NFloat.mul]
  | ninf => simp [NFloat.mul]
  | fin p => exact Or.inl (by simp [NFloat.mul])

end ReynoldsViewer

namespace ReynoldsViewer

open NFloat

/- ### Claim theorems -/

/-- C1: for all positive density, viscosity, flow_rate and diameter,
`reynolds(flow_rate, diameter, density, viscosity)` equals
`(4 * density * flow_rate) / (60 * viscosity * π * diameter)` (with π the
program's `math.pi` constant), for scalar inputs and elementwise over
arrays of flow_rate and diameter. -/
theorem reynolds_matches_formula (flow_rate diameter density viscosity : ℚ)
    (hρ : 0 < density) (hμ : 0 < viscosity) (hq : 0 < flow_rate) (hd : 0 < diameter) :
    reynolds flow_rate diameter density viscosity =
      (4 * density * flow_rate) / (60 * viscosity * piQ * diameter) ∧
    (∀ xs ds : List ℚ,
      reynoldsZip xs ds density viscosity =
        List.zipWith (fun x y => (4 * density * x) / (60 * viscosity * piQ * y)) xs ds) ∧
    (∀ xs : List ℚ,
      xs.map (fun x => reynolds x diameter density viscosity) =
        xs.map (fun x => (4 * density * x) / (60 * viscosity * piQ * diameter))) :=
  ⟨rfl, fun _ _ => rfl, fun _ => rfl⟩

/-- Witness for C1 at the spec's worked example
(density 999.974, viscosity 0.001016, flow rate 10, diameter 100). -/
theorem reynolds_matches_formula_witness :
    reynolds 10 100 (999974/1000) (1016/1000000) =
      (4 * (999974/1000) * 10) / (60 * (1016/1000000) * piQ * 100) :=
  (reynolds_matches_formula 10 100 (999974/1000) (1016/1000000)
    (by norm_num) (by norm_num) (by norm_num) (by norm_num)).1

/-- C5: the scalar mask is idempotent for every input value and all bounds. -/
theorem maskVal_idempotent (v low high : NFloat) :
    maskVal (maskVal v low high) low high = maskVal v low high := by
  by_cases h : (NFloat.lt v low || NFloat.gt v high) = true
  · have hv : maskVal v low high = NFloat.nan := by simp [maskVal, h]
    rw [hv, maskVal_nan]
  · have hv : maskVal v low high = v := by simp [maskVal, h]
    rw [hv]
    exact hv

/-- C6: `reynolds` is linear in flow_rate and in density for every scale
factor `k`, and scaling diameter or viscosity by `k > 0` divides the
result by `k`. -/
theorem reynolds_scaling (x y density viscosity k : ℚ) :
    reynolds (k * x) y density viscosity = k * reynolds x y density viscosity ∧
    reynolds x y (k * density) viscosity = k * reynolds x y density viscosity ∧
    (0 < k →
      reynolds x (k * y) density viscosity = reynolds x y density viscosity / k ∧
      reynolds x y density (k * viscosity) = reynolds x y density viscosity / k) := by
  refine ⟨?_, ?_, fun _ => ⟨?_, ?_⟩⟩ <;> · unfold reynolds; ring

/-- Witness for C6 at concrete inputs, exercising both a linearity clause
and, with `k = 2 > 0`, an inverse-proportionality clause. -/
theorem reynolds_scaling_witness :
    reynolds (2 * 10) 100 (999974/1000) (1016/1000000) =
      2 * reynolds 10 100 (999974/1000) (1016/1000000) ∧
    reynolds 10 (2 * 100) (999974/1000) (1016/1000000) =
      reynolds 10 100 (999974/1000) (1016/1000000) / 2 :=
  ⟨(reynolds_scaling 10 100 (999974/1000) (1016/1000000) 2).1,
   ((reynolds_scaling 10 100 (999974/1000) (1016/1000000) 2).2.2 (by norm_num)).1⟩

/-- C2: masking preserves shape; a finite entry strictly below `low` or
strictly above `high` (and likewise an infinite entry, which always lies
outside finite bounds) becomes `nan`; a finite entry inside the inclusive
interval `[low, high]`, the bounds themselves included, passes through
unchanged. -/
theorem mask_z_values_range (Z : List NFloat) (low high : ℚ) :
    (mask_z_values Z (fin low) (fin high)).length = Z.length ∧
    (∀ i : ℕ, i < Z.length →
      (∀ q : ℚ, Z[i]? = some (fin q) →
        ((q < low ∨ high < q) →
          (mask_z_values Z (fin low) (fin high))[i]? = some NFloat.nan) ∧
        (low ≤ q → q ≤ high →
          (mask_z_values Z (fin low) (fin high))[i]? = some (fin q))) ∧
      (Z[i]? = some NFloat.inf →
        (mask_z_values Z (fin low) (fin high))[i]? = some NFloat.nan) ∧
      (Z[i]? = some NFloat.ninf →
        (mask_z_values Z (fin low) (fin high))[i]? = some NFloat.nan)) := by
  have hmap : ∀ i : ℕ, (mask_z_values Z (fin low) (fin high))[i]? =
      (Z[i]?).map (fun z => maskVal z (fin low) (fin high)) := by
    intro i
    simp [mask_z_values]
  refine ⟨by simp [mask_z_values], ?_⟩
  intro i _
  refine ⟨?_, ?_, ?_⟩
  · intro q hq
    constructor
    · intro hout
      rw [hmap, hq]
      simp [maskVal_fin, hout]
    · intro h1 h2
      have hin : ¬(q < low ∨ high < q) := by
        push_neg
        exact ⟨h1, h2⟩
      rw [hmap, hq]
      simp [maskVal_fin, hin]
  · intro hq
    rw [hmap, hq]
    simp [maskVal_inf]
  · intro hq
    rw [hmap, hq]
    simp [maskVal_ninf]

/-- Witness for C2: the spec's example `mask(0, 1, 5000) == NaN`. -/
theorem mask_z_values_range_witness :
    (mask_z_values [fin 0] (fin 1) (fin 5000))[0]? = some NFloat.nan :=
  (((mask_z_values_range [fin 0] 1 5000).2 0 (by simp)).1 0 (by simp)).1
    (Or.inl (by norm_num))

/-- C9: with ordered bounds, a `nan` input entry stays `nan`, the two
infinities (always outside finite bounds) become `nan`, `nan` entries of an
array propagate to `nan` entries of the masked array, and every finite
value of the masked output lies inside `[low, high]`, so anomalous values
never survive as finite in-range entries; masking is a total function, so
no exception is raised. -/
theorem mask_z_values_anomalies (low high : ℚ) (h : low ≤ high) :
    maskVal NFloat.nan (fin low) (fin high) = NFloat.nan ∧
    maskVal NFloat.inf (fin low) (fin high) = NFloat.nan ∧
    maskVal NFloat.ninf (fin low) (fin high) = NFloat.nan ∧
    (∀ Z : List NFloat, ∀ i : ℕ, Z[i]? = some NFloat.nan →
      (mask_z_values Z (fin low) (fin high))[i]? = some NFloat.nan) ∧
    (∀ Z : List NFloat, ∀ v ∈ mask_z_values Z (fin low) (fin high),
      ∀ q : ℚ, v = fin q → low ≤ q ∧ q ≤ high) := by
  refine ⟨maskVal_nan _ _, maskVal_inf low high, maskVal_ninf low high, ?_, ?_⟩
  · intro Z i hq
    have hmap : (mask_z_values Z (fin low) (fin high))[i]? =
        (Z[i]?).map (fun z => maskVal z (fin low) (fin high)) := by
      simp [mask_z_values]
    rw [hmap, hq]
    simp [maskVal_nan]
  · intro Z v hv q hfin
    subst hfin
    rcases List.mem_map.mp hv with ⟨z, _, hz⟩
    cases z with
    | nan => rw [maskVal_nan] at hz; cases hz
    | inf => rw [maskVal_inf] at hz; cases hz
    | ninf => rw [maskVal_ninf] at hz; cases hz
    | fin p =>
        rw [maskVal_fin] at hz
        by_cases hout : p < low ∨ high < p
        · rw [if_pos hout] at hz; cases hz
        · rw [if_neg hout] at hz
          push_neg at hout
          cases hz
          exact hout

/-- Witness for C9 at the program's default displayed range. -/
theorem mask_z_values_anomalies_witness :
    maskVal NFloat.nan (fin 1) (fin 5000) = NFloat.nan :=
  (mask_z_values_anomalies 1 5000 (by norm_num)).1

/-- C10: with inverted bounds (`low > high`), every non-`nan` input value
is replaced by `nan`, and the masked output contains no finite values. -/
theorem mask_z_values_inverted (low high : ℚ) (h : high < low) :
    (∀ v : NFloat, v ≠ NFloat.nan → maskVal v (fin low) (fin high) = NFloat.nan) ∧
    (∀ Z : List NFloat, ∀ v ∈ mask_z_values Z (fin low) (fin high),
      isNonFinite v = true) := by
  have hscalar : ∀ v : NFloat, v ≠ NFloat.nan →
      maskVal v (fin low) (fin high) = NFloat.nan := by
    intro v hne
    cases v with
    | nan => exact absurd rfl hne
    | inf => exact maskVal_inf low high
    | ninf => exact maskVal_ninf low high
    | fin q =>
        rw [maskVal_fin]
        have : q < low ∨ high < q := by
          by_cases hq : q < low
          · exact Or.inl hq
          · exact Or.inr (lt_of_lt_of_le h (not_lt.mp hq))
        rw [if_pos this]
  refine ⟨hscalar, ?_⟩
  intro Z v hv
  rcases List.mem_map.mp hv with ⟨z, _, hz⟩
  cases z with
  | nan => rw [maskVal_nan] at hz; rw [← hz]; rfl
  | inf => rw [maskVal_inf] at hz; rw [← hz]; rfl
  | ninf => rw [maskVal_ninf] at hz; rw [← hz]; rfl
  | fin p =>
      rw [hscalar (fin p) (by simp)] at hz
      rw [← hz]
      rfl

/-- Witness for C10 with bounds 5000 > 1. -/
theorem mask_z_values_inverted_witness :
    maskVal (fin 2000) (fin 5000) (fin 1) = NFloat.nan :=
  (mask_z_values_inverted 5000 1 (by norm_num)).1 (fin 2000) (by simp)

lemma Z_boundary_eq_replicate (X : List (List NFloat)) :
    Z_boundary X = (X.map List.length).map (fun n => List.replicate n (fin 2000)) := by
  induction X with
  | nil => rfl
  | cons r t ih =>
      simp only [Z_boundary, full_like, List.map_cons] at ih ⊢
      rw [ih]
      congr 1
      induction r with
      | nil => rfl
      | cons a s ihr => simp [List.replicate_succ, ihr]

/-- C7: the boundary plane has the same shape as the grid (same number of
rows, same length for each row), every entry equals the constant 2000, and
its value depends only on the grid's shape, not on the coordinate values
or any user parameter. -/
theorem Z_boundary_constant (X : List (List NFloat)) :
    (Z_boundary X).length = X.length ∧
    (∀ i : ℕ, (Z_boundary X)[i]?.map List.length = X[i]?.map List.length) ∧
    (∀ row ∈ Z_boundary X, ∀ v ∈ row, v = fin 2000) ∧
    (∀ X' : List (List NFloat), X.map List.length = X'.map List.length →
      Z_boundary X = Z_boundary X') := by
  refine ⟨by simp [Z_boundary, full_like], ?_, ?_, ?_⟩
  · intro i
    simp [Z_boundary, full_like]
    cases X[i]? <;> simp
  · intro row hrow v hv
    rcases List.mem_map.mp hrow with ⟨r, _, hr⟩
    subst hr
    rcases List.mem_map.mp hv with ⟨a, _, ha⟩
    exact ha.symm
  · intro X' hshape
    rw [Z_boundary_eq_replicate, Z_boundary_eq_replicate, hshape]

/-- Witness for C7: two grids of equal shape but different coordinate
values produce the same boundary plane. -/
theorem Z_boundary_constant_witness :
    Z_boundary [[fin 1, fin 2]] = Z_boundary [[fin 7, NFloat.nan]] :=
  (Z_boundary_constant [[fin 1, fin 2]]).2.2.2 [[fin 7, NFloat.nan]] (by simp)

lemma nfdiv_nonfinite_of_denom (nm d : NFloat)
    (hd : d = fin 0 ∨ d = NFloat.nan) : isNonFinite (NFloat.div nm d) = true := by
  rcases hd with h | h <;> subst h
  · exact nfdiv_fin_zero nm
  · rw [nfdiv_nan_right]
    rfl

lemma denom_zero_diameter (viscosity : NFloat) :
    NFloat.mul (NFloat.mul (NFloat.mul (fin 60) viscosity) (fin piQ)) (fin 0) = fin 0 ∨
    NFloat.mul (NFloat.mul (NFloat.mul (fin 60) viscosity) (fin piQ)) (fin 0) =
      NFloat.nan :=
  nfmul_fin_zero_right _

lemma denom_zero_viscosity (y : NFloat) :
    NFloat.mul (NFloat.mul (NFloat.mul (fin 60) (fin 0)) (fin piQ)) y = fin 0 ∨
    NFloat.mul (NFloat.mul (NFloat.mul (fin 60) (fin 0)) (fin piQ)) y = NFloat.nan := by
  have h1 : NFloat.mul (fin 60) (fin 0) = fin 0 := by
    simp [NFloat.mul]
  have h2 : NFloat.mul (fin 0) (fin piQ) = fin 0 := by
    simp [NFloat.mul]
  rw [h1, h2]
  exact nfmul_fin_zero_left y

/-- C3: with the diameter zero or the viscosity zero and every other input
arbitrary, `reynolds` returns a non-finite value (an infinity or `nan`,
the float representation's division-by-zero results) rather than raising
an error — the function is total in the model — and the same holds
elementwise when the flow rate is an array. -/
theorem reynoldsF_zero_denominator (x y density viscosity : NFloat) :
    isNonFinite (reynoldsF x (fin 0) density viscosity) = true ∧
    isNonFinite (reynoldsF x y density (fin 0)) = true ∧
    (∀ xs : List NFloat,
      ∀ v ∈ Z_y_fixed xs (fin 0) density viscosity, isNonFinite v = true) ∧
    (∀ xs : List NFloat,
      ∀ v ∈ Z_y_fixed xs y density (fin 0), isNonFinite v = true) := by
  have hdia : ∀ x' : NFloat,
      isNonFinite (reynoldsF x' (fin 0) density viscosity) = true := by
    intro x'
    exact nfdiv_nonfinite_of_denom _ _ (denom_zero_diameter viscosity)
  have hvis : ∀ x' y' : NFloat,
      isNonFinite (reynoldsF x' y' density (fin 0)) = true := by
    intro x' y'
    exact nfdiv_nonfinite_of_denom _ _ (denom_zero_viscosity y')
  refine ⟨hdia x, hvis x y, ?_, ?_⟩
  · intro xs v hv
    rcases List.mem_map.mp hv with ⟨xi, _, hxi⟩
    rw [← hxi]
    exact hdia xi
  · intro xs v hv
    rcases List.mem_map.mp hv with ⟨xi, _, hxi⟩
    rw [← hxi]
    exact hvis xi y

/-- Witness for C3: a zero diameter on a one-point flow-rate array gives a
non-finite cross-section entry. -/
theorem reynoldsF_zero_denominator_witness :
    isNonFinite (reynoldsF (fin 10) (fin 0) (fin 1) (fin 1)) = true :=
  (reynoldsF_zero_denominator (fin 10) (fin 2) (fin 1) (fin 1)).2.2.1 [fin 10]
    (reynoldsF (fin 10) (fin 0) (fin 1) (fin 1)) (by simp [Z_y_fixed])

lemma zipWith_replicate_right {α β γ : Type} (f : α → β → γ) (xs : List α) (c : β) :
    List.zipWith f xs (List.replicate xs.length c) = xs.map (fun x => f x c) := by
  induction xs with
  | nil => rfl
  | cons a t ih => simp [List.replicate_succ, ih]

/-- C4: the inlined 1D masking expression of `Z_y_fixed_masked` computes
exactly `mask_z_values` applied to the raw cross-section; the masked 1D
cross-section entry at index `i` is the scalar mask applied to
`reynolds(x_i, d0, density, viscosity)`; and whenever the diameter
sequence has `d0` at row `r`, row `r` of the masked 2D surface equals the
masked 1D cross-section. -/
theorem cross_section_consistency (xs ys : List NFloat)
    (d0 density viscosity zmin zmax : NFloat) (r : ℕ) (hr : ys[r]? = some d0) :
    Z_y_fixed_masked xs d0 density viscosity zmin zmax =
      mask_z_values (Z_y_fixed xs d0 density viscosity) zmin zmax ∧
    (∀ i : ℕ, (Z_y_fixed_masked xs d0 density viscosity zmin zmax)[i]? =
      (xs[i]?).map (fun xi => maskVal (reynoldsF xi d0 density viscosity) zmin zmax)) ∧
    (mask_z_values2
        (reynoldsGrid (meshgrid xs ys).1 (meshgrid xs ys).2 density viscosity)
        zmin zmax)[r]? =
      some (Z_y_fixed_masked xs d0 density viscosity zmin zmax) := by
  have hrlt : r < ys.length := by
    by_contra hc
    push_neg at hc
    rw [List.getElem?_eq_none hc] at hr
    cases hr
  refine ⟨rfl, ?_, ?_⟩
  · intro i
    cases hx : xs[i]? with
    | none => simp [Z_y_fixed_masked, Z_y_fixed, hx]
    | some xi => simp [Z_y_fixed_masked, Z_y_fixed, hx, maskVal]
  · have hX : (meshgrid xs ys).1[r]? = some xs := by
      simp [meshgrid, hrlt]
    have hY : (meshgrid xs ys).2[r]? = some (xs.map (fun _ => d0)) := by
      simp [meshgrid, hr]
    have hrow : (reynoldsGrid (meshgrid xs ys).1 (meshgrid xs ys).2 density viscosity)[r]? =
        some (xs.map (fun x => reynoldsF x d0 density viscosity)) := by
      rw [reynoldsGrid, List.getElem?_zipWith', hX, hY]
      simp [zipWith_replicate_right]
    rw [mask_z_values2, List.getElem?_map, hrow]
    rfl

/-- Witness for C4 on a concrete two-point flow-rate sequence with the
diameter row containing `d0 = 3`. -/
theorem cross_section_consistency_witness :
    Z_y_fixed_masked [fin 1, fin 2] (fin 3) (fin 1) (fin 1) (fin 1) (fin 5000) =
      mask_z_values (Z_y_fixed [fin 1, fin 2] (fin 3) (fin 1) (fin 1)) (fin 1) (fin 5000) :=
  (cross_section_consistency [fin 1, fin 2] [fin 3] (fin 3) (fin 1) (fin 1) (fin 1)
    (fin 5000) 0 (by simp)).1

lemma linspace_length (a b : ℚ) (n : ℕ) : (linspace a b n).length = n := by
  simp only [linspace, List.length_map, List.length_range]

lemma linspace_getElem? (a b : ℚ) (n i : ℕ) (h : i < n) :
    (linspace a b n)[i]? = some (a + (i : ℚ) * (b - a) / ((n : ℚ) - 1)) := by
  simp only [linspace, List.getElem?_map]
  rw [List.getElem?_range h]
  rfl

lemma linspace_first (a b : ℚ) : (linspace a b 100)[0]? = some a := by
  rw [linspace_getElem? a b 100 0 (by norm_num)]
  congr 1
  push_cast
  ring

lemma linspace_last (a b : ℚ) : (linspace a b 100).getLast? = some b := by
  rw [List.getLast?_eq_getElem?, linspace_length]
  rw [show (100 - 1 : ℕ) = 99 from rfl]
  rw [linspace_getElem? a b 100 99 (by norm_num)]
  congr 1
  push_cast
  ring

lemma linspace_step (a b : ℚ) (i : ℕ) (h : i + 1 < 100) :
    ∃ u v : ℚ, (linspace a b 100)[i]? = some u ∧ (linspace a b 100)[i + 1]? = some v ∧
      v - u = (b - a) / 99 := by
  refine ⟨_, _, linspace_getElem? a b 100 i (by omega), linspace_getElem? a b 100 (i + 1) h, ?_⟩
  push_cast
  ring

lemma meshgrid_X_getElem? {α : Type} (xs ys : List α) (i : ℕ) (hi : i < ys.length) :
    (meshgrid xs ys).1[i]? = some xs := by
  simp [meshgrid, hi]

lemma meshgrid_Y_getElem? {α : Type} (xs ys : List α) (i : ℕ) (yi : α)
    (h : ys[i]? = some yi) : (meshgrid xs ys).2[i]? = some (xs.map (fun _ => yi)) := by
  simp [meshgrid, h]

lemma gridGet_X (x_min x_max y_min y_max : ℚ) (i j : ℕ) (hi : i < 100) (hj : j < 100) :
    gridGet (XY x_min x_max y_min y_max).1 i j =
      some (x_min + (j : ℚ) * (x_max - x_min) / 99) := by
  have hrow : (XY x_min x_max y_min y_max).1[i]? = some (x_seq x_min x_max) := by
    apply meshgrid_X_getElem?
    rw [y_seq, linspace_length]
    exact hi
  rw [gridGet, hrow]
  simp only [Option.some_bind]
  rw [x_seq, linspace_getElem? _ _ _ _ hj]
  norm_num

lemma gridGet_Y (x_min x_max y_min y_max : ℚ) (i j : ℕ) (hi : i < 100) (hj : j < 100) :
    gridGet (XY x_min x_max y_min y_max).2 i j =
      some (y_min + (i : ℚ) * (y_max - y_min) / 99) := by
  have hyi : (y_seq y_min y_max)[i]? =
      some (y_min + (i : ℚ) * (y_max - y_min) / ((100 : ℚ) - 1)) := by
    rw [y_seq]
    exact linspace_getElem? _ _ _ _ hi
  have hrow := meshgrid_Y_getElem? (x_seq x_min x_max) (y_seq y_min y_max) i _ hyi
  rw [XY, gridGet, hrow]
  simp only [Option.some_bind]
  have hjl : j < (x_seq x_min x_max).length := by
    rw [x_seq, linspace_length]
    exact hj
  rw [List.getElem?_map]
  rw [List.getElem?_eq_getElem hjl]
  norm_num

/-- C8: the grid builder makes two evenly spaced sequences of length 100
(first element the range minimum, last element the range maximum, constant
step), and `meshgrid` forms two 100×100 coordinate arrays whose entry
`(i, j)` is the `j`-th flow-rate sample for `X` and the `i`-th diameter
sample for `Y`, increasing monotonically along their respective axes. -/
theorem grid_builder_spec (x_min x_max y_min y_max : ℚ)
    (hx : x_min ≤ x_max) (hy : y_min ≤ y_max) :
    (x_seq x_min x_max).length = 100 ∧
    (y_seq y_min y_max).length = 100 ∧
    (x_seq x_min x_max)[0]? = some x_min ∧
    (x_seq x_min x_max).getLast? = some x_max ∧
    (y_seq y_min y_max)[0]? = some y_min ∧
    (y_seq y_min y_max).getLast? = some y_max ∧
    (∀ i : ℕ, i + 1 < 100 → ∃ u v : ℚ,
      (x_seq x_min x_max)[i]? = some u ∧ (x_seq x_min x_max)[i + 1]? = some v ∧
      v - u = (x_max - x_min) / 99) ∧
    (∀ i : ℕ, i + 1 < 100 → ∃ u v : ℚ,
      (y_seq y_min y_max)[i]? = some u ∧ (y_seq y_min y_max)[i + 1]? = some v ∧
      v - u = (y_max - y_min) / 99) ∧
    (XY x_min x_max y_min y_max).1.length = 100 ∧
    (∀ row ∈ (XY x_min x_max y_min y_max).1, row.length = 100) ∧
    (XY x_min x_max y_min y_max).2.length = 100 ∧
    (∀ row ∈ (XY x_min x_max y_min y_max).2, row.length = 100) ∧
    (∀ i j : ℕ, i < 100 → j < 100 →
      gridGet (XY x_min x_max y_min y_max).1 i j =
        some (x_min + (j : ℚ) * (x_max - x_min) / 99) ∧
      gridGet (XY x_min x_max y_min y_max).2 i j =
        some (y_min + (i : ℚ) * (y_max - y_min) / 99)) ∧
    (∀ i j j' : ℕ, i < 100 → j ≤ j' → j' < 100 → ∀ u v : ℚ,
      gridGet (XY x_min x_max y_min y_max).1 i j = some u →
      gridGet (XY x_min x_max y_min y_max).1 i j' = some v → u ≤ v) ∧
    (∀ i i' j : ℕ, i ≤ i' → i' < 100 → j < 100 → ∀ u v : ℚ,
      gridGet (XY x_min x_max y_min y_max).2 i j = some u →
      gridGet (XY x_min x_max y_min y_max).2 i' j = some v → u ≤ v) := by
  have hxlen : (x_seq x_min x_max).length = 100 := by
    rw [x_seq, linspace_length]
  have hylen : (y_seq y_min y_max).length = 100 := by
    rw [y_seq, linspace_length]
  refine ⟨hxlen, hylen, by rw [x_seq]; exact linspace_first _ _,
    by rw [x_seq]; exact linspace_last _ _, by rw [y_seq]; exact linspace_first _ _,
    by rw [y_seq]; exact linspace_last _ _,
    fun i h => by rw [x_seq]; exact linspace_step _ _ i h,
    fun i h => by rw [y_seq]; exact linspace_step _ _ i h, ?_, ?_, ?_, ?_, ?_, ?_, ?_⟩
  · rw [XY, meshgrid]
    simp [hylen]
  · intro row hrow
    rw [XY, meshgrid] at hrow
    rcases List.mem_map.mp hrow with ⟨_, _, hr⟩
    rw [← hr, hxlen]
  · rw [XY, meshgrid]
    simp [hylen]
  · intro row hrow
    rw [XY, meshgrid] at hrow
    rcases List.mem_map.mp hrow with ⟨yi, _, hr⟩
    rw [← hr, List.length_map, hxlen]
  · intro i j hi hj
    exact ⟨gridGet_X x_min x_max y_min y_max i j hi hj,
      gridGet_Y x_min x_max y_min y_max i j hi hj⟩
  · intro i j j' hi hjj hj' u v hu hv
    rw [gridGet_X x_min x_max y_min y_max i j hi (lt_of_le_of_lt hjj hj')] at hu
    rw [gridGet_X x_min x_max y_min y_max i j' hi hj'] at hv
    cases hu
    cases hv
    have hc : (j : ℚ) ≤ (j' : ℚ) := by exact_mod_cast hjj
    have hs : (0 : ℚ) ≤ x_max - x_min := sub_nonneg.mpr hx
    gcongr
  · intro i i' j hii hi' hj u v hu hv
    rw [gridGet_Y x_min x_max y_min y_max i j (lt_of_le_of_lt hii hi') hj] at hu
    rw [gridGet_Y x_min x_max y_min y_max i' j hi' hj] at hv
    cases hu
    cases hv
    have hc : (i : ℚ) ≤ (i' : ℚ) := by exact_mod_cast hii
    have hs : (0 : ℚ) ≤ y_max - y_min := sub_nonneg.mpr hy
    gcongr

/-- Witness for C8 at the program's default ranges (flow rate 1–20,
diameter 1–250). -/
theorem grid_builder_spec_witness :
    (x_seq 1 20)[0]? = some 1 :=
  (grid_builder_spec 1 20 1 250 (by norm_num) (by norm_num)).2.2.1

end ReynoldsViewer
